import Mathlib

/-!
Verification of the portfolio-tracker calculation engine (`calculations.py`).

The embedding models one `(account_id, ticker)` group of stock transactions
as a `List Txn`.  Money and quantities are rationals (`ℚ`), dates are day
numbers (`ℤ`).  `transaction_type` in the stock-transaction table is only
ever `'BUY'` or `'SELL'`.  The pandas group-by over `(account_id, ticker)`
is modelled by `groupTxns`: the rows of a group, in stored order, are
exactly the rows matching the key.  `calculate_cash_balance` lives in the
external database; the cash amount is therefore an explicit parameter of
the portfolio-metrics embedding.
-/

inductive TxnType where
  | BUY : TxnType
  | SELL : TxnType
deriving DecidableEq, Repr

/-- One row of the transactions table (the fields `calculations.py` reads). -/
structure Txn where
  accountId : String
  ticker : String
  txnType : TxnType
  quantity : ℚ
  tradePrice : ℚ
  fee : ℚ
  transactionDate : ℤ
  stockName : String
  country : String
  currency : String
deriving DecidableEq, Repr

/-- The rows of the pandas group for key `(accId, tick)`, in stored order. -/
def groupTxns (txns : List Txn) (accId tick : String) : List Txn :=
  txns.filter (fun t => t.accountId == accId && t.ticker == tick)

/-- `group[group['transaction_type'] == 'BUY']` -/
def buyTxns (g : List Txn) : List Txn :=
  g.filter (fun t => t.txnType == TxnType.BUY)

/-- `group[group['transaction_type'] == 'SELL']` -/
def sellTxns (g : List Txn) : List Txn :=
  g.filter (fun t => t.txnType == TxnType.SELL)

/-- `buy_txns['quantity'].sum()` -/
def totalBuyQty (g : List Txn) : ℚ :=
  ((buyTxns g).map (fun t => t.quantity)).sum

/-- `sell_txns['quantity'].sum()` -/
def totalSellQty (g : List Txn) : ℚ :=
  ((sellTxns g).map (fun t => t.quantity)).sum

/-- `current_qty = total_buy_qty - total_sell_qty` -/
def currentQty (g : List Txn) : ℚ :=
  totalBuyQty g - totalSellQty g

/-- `total_buy_cost = ((buy_txns['trade_price'] * buy_txns['quantity']) + buy_txns['fee'].fillna(0)).sum()` -/
def totalBuyCost (g : List Txn) : ℚ :=
  ((buyTxns g).map (fun t => t.tradePrice * t.quantity + t.fee)).sum

/-- `avg_price = total_buy_cost / total_buy_qty if total_buy_qty > 0 else 0` -/
def avgPrice (g : List Txn) : ℚ :=
  if totalBuyQty g > 0 then totalBuyCost g / totalBuyQty g else 0

/-- One entry of the holdings frame produced by `calculate_holdings`. -/
structure Holding where
  quantity : ℚ
  avgPrice : ℚ
  stockName : String
  country : String
  currency : String
  totalCostBasis : ℚ
deriving DecidableEq, Repr

/-- The body of the group loop in `calculate_holdings`: a group with
non-positive net quantity produces no entry; metadata comes from the
group's first stored row (`group.iloc[0]`). -/
def holdingOfGroup (g : List Txn) : Option Holding :=
  match g with
  | [] => none
  | m :: _ =>
    if currentQty g > 0 then
      some { quantity := currentQty g
             avgPrice := avgPrice g
             stockName := m.stockName
             country := m.country
             currency := m.currency
             totalCostBasis := avgPrice g * currentQty g }
    else none

/-- `calculate_holdings`, restricted to one `(account_id, ticker)` key:
`none` means the key is absent from the returned frame. -/
def calculateHoldings (txns : List Txn) (accId tick : String) : Option Holding :=
  holdingOfGroup (groupTxns txns accId tick)

/-- `group.sort_values('transaction_date')`: a date-ascending rearrangement. -/
def sortByDate (g : List Txn) : List Txn :=
  g.insertionSort (fun a b => a.transactionDate ≤ b.transactionDate)

/-- One row of the frame produced by `calculate_closed_positions`. -/
structure ClosedRecord where
  ticker : String
  stockName : String
  country : String
  currency : String
  totalSharesTraded : ℚ
  realizedPl : ℚ
  realizedReturnPct : ℚ
  result : String
  firstTradeDate : ℤ
  lastTradeDate : ℤ
  holdingPeriodDays : ℤ
deriving DecidableEq, Repr

/-- `_create_closed_record`: the arithmetic of one closed episode.
`buysL`/`sellsL` are the episode's accumulated buy and sell rows,
`firstDate` the episode's recorded first date, `lastDate` the closing
sell's date, `metadata` the first row of the sorted group. -/
def createClosedRecord (buysL sellsL : List Txn) (firstDate lastDate : ℤ)
    (tick : String) (metadata : Txn) : ClosedRecord :=
  let buyCost := (buysL.map (fun t => t.tradePrice * t.quantity + t.fee)).sum
  let sellRevenue := (sellsL.map (fun t => t.tradePrice * t.quantity - t.fee)).sum
  let totalQty := (buysL.map (fun t => t.quantity)).sum
  let realizedPl := sellRevenue - buyCost
  let realizedReturnPct := if buyCost > 0 then realizedPl / buyCost * 100 else 0
  { ticker := tick
    stockName := metadata.stockName
    country := metadata.country
    currency := metadata.currency
    totalSharesTraded := totalQty
    realizedPl := realizedPl
    realizedReturnPct := realizedReturnPct
    result := if realizedReturnPct ≥ 0 then "Win" else "Loss"
    firstTradeDate := firstDate
    lastTradeDate := lastDate
    holdingPeriodDays := lastDate - firstDate }

/-- The episode-tracking state of the loop in `calculate_closed_positions`. -/
structure PositionState where
  positionOpen : Bool
  buyList : List Txn
  sellList : List Txn
  firstDate : Option ℤ
  runningQty : ℚ

def initPosition : PositionState :=
  { positionOpen := false, buyList := [], sellList := [], firstDate := none,
    runningQty := 0 }

/-- One iteration of the transaction loop in `calculate_closed_positions`:
returns the updated state and the emitted record, if any. -/
def stepTxn (tick : String) (metadata : Txn) (st : PositionState) (t : Txn) :
    PositionState × Option ClosedRecord :=
  match t.txnType with
  | TxnType.BUY =>
    let st1 :=
      if st.positionOpen then
        { st with buyList := st.buyList ++ [t],
                  runningQty := st.runningQty + t.quantity }
      else
        { st with positionOpen := true,
                  firstDate := some t.transactionDate,
                  buyList := st.buyList ++ [t],
                  runningQty := st.runningQty + t.quantity }
    (st1, none)
  | TxnType.SELL =>
    let st1 := { st with sellList := st.sellList ++ [t],
                         runningQty := st.runningQty - t.quantity }
    if st1.runningQty = 0 ∧ st1.positionOpen then
      let r := createClosedRecord st1.buyList st1.sellList
                 (st1.firstDate.getD 0) t.transactionDate tick metadata
      ({ positionOpen := false, buyList := [], sellList := [],
         firstDate := none, runningQty := st1.runningQty }, some r)
    else (st1, none)

/-- The transaction loop of `calculate_closed_positions`, collecting the
emitted records in order. -/
def processTxns (tick : String) (metadata : Txn) :
    PositionState → List Txn → List ClosedRecord
  | _, [] => []
  | st, t :: rest =>
    match stepTxn tick metadata st t with
    | (st1, some r) => r :: processTxns tick metadata st1 rest
    | (st1, none) => processTxns tick metadata st1 rest

/-- `calculate_closed_positions` on one group: sort by date, run the loop
from the empty position; `sorted_txns.iloc[0]` supplies the metadata. -/
def closedPositionsOfGroup (tick : String) (g : List Txn) : List ClosedRecord :=
  match sortByDate g with
  | [] => []
  | m :: rest => processTxns tick m initPosition (m :: rest)

/-- `calculate_closed_positions`, restricted to one `(account_id, ticker)` key. -/
def calculateClosedPositions (txns : List Txn) (accId tick : String) :
    List ClosedRecord :=
  closedPositionsOfGroup tick (groupTxns txns accId tick)

/-- The signed quantity contribution of one transaction to the running
quantity. -/
def signedQty (t : Txn) : ℚ :=
  match t.txnType with
  | TxnType.BUY => t.quantity
  | TxnType.SELL => -t.quantity

/-- Sum of signed quantities: the running quantity after a list of rows. -/
def signedSum (l : List Txn) : ℚ :=
  (l.map signedQty).sum

/-- Whether a list of rows contains a buy. -/
def hasBuy (l : List Txn) : Bool :=
  l.any (fun t => t.txnType == TxnType.BUY)

/-- The date of the first buy of an episode (`0` when the episode has no
buy; emission always happens with at least one buy accumulated). -/
def episodeFirstBuyDate (episode : List Txn) : ℤ :=
  (((episode.find? (fun t => t.txnType == TxnType.BUY)).map
      (fun t => t.transactionDate)).getD 0)

/-- The record of one closed episode, computed from the episode's rows:
buy rows and sell rows are the episode's buys and sells, the first date is
the date of the episode-opening buy, the last date the closing sell's. -/
def episodeRecord (tick : String) (metadata : Txn) (episode : List Txn)
    (lastDate : ℤ) : ClosedRecord :=
  createClosedRecord (buyTxns episode) (sellTxns episode)
    (episodeFirstBuyDate episode) lastDate tick metadata

/-- Episode-splitting description of the spec's closed-position algorithm:
walk the date-sorted rows keeping the running signed quantity `total` and
the rows `pending` accumulated since the last emission; a sell that brings
the running quantity to exactly zero while a buy has been accumulated
closes the episode, emits its record and resets the accumulator. -/
def specClosedRun (tick : String) (metadata : Txn) :
    ℚ → List Txn → List Txn → List ClosedRecord
  | _, _, [] => []
  | total, pending, t :: rest =>
    let total1 := total + signedQty t
    let pending1 := pending ++ [t]
    if t.txnType = TxnType.SELL ∧ total1 = 0 ∧ hasBuy pending1 then
      episodeRecord tick metadata pending1 t.transactionDate ::
        specClosedRun tick metadata total1 [] rest
    else
      specClosedRun tick metadata total1 pending1 rest

/-- Spec-level closed positions of one group: sort by date, split into
episodes. -/
def specClosedPositions (tick : String) (g : List Txn) : List ClosedRecord :=
  match sortByDate g with
  | [] => []
  | m :: rest => specClosedRun tick m 0 [] (m :: rest)

/-- Number of times the running quantity returns to exactly zero on a sell
while walking a list of rows, starting from running quantity `total`. -/
def zeroSellCount : ℚ → List Txn → ℕ
  | _, [] => 0
  | total, t :: rest =>
    let total1 := total + signedQty t
    (if t.txnType = TxnType.SELL ∧ total1 = 0 then 1 else 0) +
      zeroSellCount total1 rest

/-- The per-account inputs of `calculate_aggregate_metrics`: each entry of
`accounts_data` contributes `metrics['krw']['total_value']`,
`metrics['usd']['total_value']`, `seed_krw` and `seed_usd`. -/
structure AccountData where
  krwTotalValue : ℚ
  usdTotalValue : ℚ
  seedKrw : ℚ
  seedUsd : ℚ
deriving DecidableEq, Repr

/-- The dictionary returned by `calculate_aggregate_metrics`. -/
structure AggregateMetrics where
  totalValueKrw : ℚ
  totalValueUsd : ℚ
  totalInvestedKrw : ℚ
  totalInvestedUsd : ℚ
  totalPlKrw : ℚ
  totalPlUsd : ℚ
  totalReturnPct : ℚ
  exchangeRate : ℚ
deriving DecidableEq, Repr

/-- `calculate_aggregate_metrics`: sum each currency across accounts, then
apply the spot rate once to the summed totals. -/
def calculateAggregateMetrics (accountsData : List AccountData)
    (exchangeRate : ℚ) : AggregateMetrics :=
  let totalKrwValue := accountsData.foldl (fun s a => s + a.krwTotalValue) 0
  let totalUsdValue := accountsData.foldl (fun s a => s + a.usdTotalValue) 0
  let totalKrwInvested := accountsData.foldl (fun s a => s + a.seedKrw) 0
  let totalUsdInvested := accountsData.foldl (fun s a => s + a.seedUsd) 0
  let combinedValueKrw := totalKrwValue + totalUsdValue * exchangeRate
  let combinedInvestedKrw := totalKrwInvested + totalUsdInvested * exchangeRate
  let combinedValueUsd := totalUsdValue +
    (if exchangeRate > 0 then totalKrwValue / exchangeRate else 0)
  let combinedInvestedUsd := totalUsdInvested +
    (if exchangeRate > 0 then totalKrwInvested / exchangeRate else 0)
  let totalPlKrw := combinedValueKrw - combinedInvestedKrw
  let totalPlUsd := combinedValueUsd - combinedInvestedUsd
  let totalReturnPct :=
    if combinedInvestedKrw > 0 then totalPlKrw / combinedInvestedKrw * 100 else 0
  { totalValueKrw := combinedValueKrw
    totalValueUsd := combinedValueUsd
    totalInvestedKrw := combinedInvestedKrw
    totalInvestedUsd := combinedInvestedUsd
    totalPlKrw := totalPlKrw
    totalPlUsd := totalPlUsd
    totalReturnPct := totalReturnPct
    exchangeRate := exchangeRate }

/-- One row of the holdings frame as read by `calculate_portfolio_metrics`. -/
structure HoldingRow where
  ticker : String
  quantity : ℚ
  totalCostBasis : ℚ
  currency : String
deriving DecidableEq, Repr

/-- One step of the per-currency valuation loop: a ticker present in
`current_prices` adds `price * quantity`; an absent ticker adds nothing. -/
def stockValueStep (prices : String → Option ℚ) (s : ℚ) (row : HoldingRow) : ℚ :=
  match prices row.ticker with
  | some p => s + p * row.quantity
  | none => s

/-- `stock_value` accumulated over a currency's holdings. -/
def stockValue (rows : List HoldingRow) (prices : String → Option ℚ) : ℚ :=
  rows.foldl (stockValueStep prices) 0

/-- One step of the `invested` accumulation: cost basis is added only for
tickers present in `current_prices`, mirroring the source loop. -/
def investedStep (prices : String → Option ℚ) (s : ℚ) (row : HoldingRow) : ℚ :=
  match prices row.ticker with
  | some _ => s + row.totalCostBasis
  | none => s

/-- `invested` accumulated over a currency's holdings. -/
def investedValue (rows : List HoldingRow) (prices : String → Option ℚ) : ℚ :=
  rows.foldl (investedStep prices) 0

/-- One currency's entry of the dictionary returned by
`calculate_portfolio_metrics`. -/
structure CurrencyMetrics where
  stockValue : ℚ
  cash : ℚ
  totalValue : ℚ
  pl : ℚ
  returnPct : ℚ
  invested : ℚ
deriving DecidableEq, Repr

/-- The per-currency half of `calculate_portfolio_metrics`; the source
repeats this block once for KRW and once for USD.  `cash` is the value of
the external `calculate_cash_balance` database call. -/
def currencyMetricsFor (rows : List HoldingRow) (prices : String → Option ℚ)
    (cash seedMoney : ℚ) : CurrencyMetrics :=
  let sv := stockValue rows prices
  let inv := investedValue rows prices
  let totalValue := sv + cash
  let pl := totalValue - seedMoney
  let returnPct := if seedMoney > 0 then pl / seedMoney * 100 else 0
  { stockValue := sv, cash := cash, totalValue := totalValue, pl := pl,
    returnPct := returnPct, invested := inv }

/-- `calculate_portfolio_metrics`: split the holdings by currency and
value each half; the two cash balances come from the external store. -/
def calculatePortfolioMetrics (holdingsRows : List HoldingRow)
    (prices : String → Option ℚ) (cashKrw cashUsd seedKrw seedUsd : ℚ) :
    CurrencyMetrics × CurrencyMetrics :=
  (currencyMetricsFor (holdingsRows.filter (fun r => r.currency == "KRW"))
     prices cashKrw seedKrw,
   currencyMetricsFor (holdingsRows.filter (fun r => r.currency == "USD"))
     prices cashUsd seedUsd)

/-- Whether a closed position counts as a win: `realized_return_pct >= 0`. -/
def isWin (r : ClosedRecord) : Bool :=
  decide (0 ≤ r.realizedReturnPct)

/-- The statistics dictionary returned by `calculate_win_rate`. -/
structure WinStats where
  totalTrades : ℕ
  wins : ℕ
  losses : ℕ
  winRate : ℚ
  avgWin : ℚ
  avgLoss : ℚ
  totalPl : ℚ
  avgPl : ℚ
deriving DecidableEq, Repr

/-- `calculate_win_rate`: zero statistics on an empty frame, otherwise
bucket counts, win rate and simple means. -/
def calculateWinRate (closed : List ClosedRecord) : WinStats :=
  match closed with
  | [] =>
    { totalTrades := 0, wins := 0, losses := 0, winRate := 0, avgWin := 0,
      avgLoss := 0, totalPl := 0, avgPl := 0 }
  | _ :: _ =>
    let wins := closed.filter (fun r => decide (0 ≤ r.realizedReturnPct))
    let losses := closed.filter (fun r => decide (r.realizedReturnPct < 0))
    let totalTrades := closed.length
    let winCount := wins.length
    let lossCount := losses.length
    let winRate :=
      if totalTrades > 0 then (winCount : ℚ) / totalTrades * 100 else 0
    let avgWin :=
      if wins.isEmpty then 0
      else ((wins.map (fun r => r.realizedReturnPct)).sum) / wins.length
    let avgLoss :=
      if losses.isEmpty then 0
      else ((losses.map (fun r => r.realizedReturnPct)).sum) / losses.length
    let totalPl := (closed.map (fun r => r.realizedPl)).sum
    let avgPl := totalPl / closed.length
    { totalTrades := totalTrades, wins := winCount, losses := lossCount,
      winRate := winRate, avgWin := avgWin, avgLoss := avgLoss,
      totalPl := totalPl, avgPl := avgPl }

/-! ### Spec-side properties and concrete data

The `...Spec` propositions below transcribe the spec's wording; the
theorems at the end of the file relate them to the embedded code.  The
`ex...` lists are the concrete inputs used by the spec's synthetic test
sequences and by the witnesses. -/

/-- Whether the last row of a date-sorted group is a sell. -/
def lastIsSell (l : List Txn) : Bool :=
  match l.getLast? with
  | some t => t.txnType == TxnType.SELL
  | none => false

/-- The spec's description of `calculate_closed_positions` on one group:
the rows are processed sorted by date ascending (a permutation of the
group, date-sorted), the loop agrees with the episode-splitting
description, one record is emitted exactly each time the running quantity
returns to zero on a sell, and a group whose running quantity never
returns to zero on a sell yields no record. -/
def ClosedEpisodeSpec (tick : String) (g : List Txn) : Prop :=
  (sortByDate g).Sorted (fun a b => a.transactionDate ≤ b.transactionDate) ∧
  (sortByDate g).Perm g ∧
  closedPositionsOfGroup tick g = specClosedPositions tick g ∧
  (closedPositionsOfGroup tick g).length = zeroSellCount 0 (sortByDate g) ∧
  (zeroSellCount 0 (sortByDate g) = 0 → closedPositionsOfGroup tick g = [])

/-- The spec's arithmetic for one emitted closed-position record, phrased
over the episode's rows: realized P&L, realized return (guarded by buy
cost), the Win/Loss label and the holding period. -/
def EpisodeArithSpec (tick : String) (meta : Txn) (r : ClosedRecord)
    (episode : List Txn) (lastDate : ℤ) : Prop :=
  r = episodeRecord tick meta episode lastDate ∧
  r.realizedPl =
    (((sellTxns episode).map (fun t => t.tradePrice * t.quantity)).sum -
      ((sellTxns episode).map (fun t => t.fee)).sum) -
    (((buyTxns episode).map (fun t => t.tradePrice * t.quantity)).sum +
      ((buyTxns episode).map (fun t => t.fee)).sum) ∧
  r.realizedReturnPct =
    (if 0 < ((buyTxns episode).map (fun t => t.tradePrice * t.quantity + t.fee)).sum
      then r.realizedPl /
          ((buyTxns episode).map (fun t => t.tradePrice * t.quantity + t.fee)).sum
          * 100
      else 0) ∧
  (r.result = "Win" ↔ 0 ≤ r.realizedReturnPct) ∧
  r.lastTradeDate = lastDate ∧
  r.holdingPeriodDays = lastDate - r.firstTradeDate

/-- The spec's contract for one currency half of
`calculate_portfolio_metrics`: unpriced tickers contribute exactly zero
to `stock_value`, `total_value = stock_value + cash`, and `return_pct` is
`0` on a zero seed and `(total_value - seed) / seed * 100` on a positive
one. -/
def CurrencySpec (rows : List HoldingRow) (prices : String → Option ℚ)
    (cash seedMoney : ℚ) : Prop :=
  (currencyMetricsFor rows prices cash seedMoney).stockValue =
      stockValue (rows.filter (fun r => (prices r.ticker).isSome)) prices ∧
  (currencyMetricsFor rows prices cash seedMoney).totalValue =
      stockValue rows prices + cash ∧
  (seedMoney = 0 → (currencyMetricsFor rows prices cash seedMoney).returnPct = 0) ∧
  (0 < seedMoney → (currencyMetricsFor rows prices cash seedMoney).returnPct =
      ((currencyMetricsFor rows prices cash seedMoney).totalValue - seedMoney)
        / seedMoney * 100)

/-- The spec's description of `calculate_win_rate` on a non-empty set of
closed positions: bucket membership by `return_pct >= 0`, the two buckets
partition the set, `win_rate = wins / total * 100`, bucket averages are
simple means, and total/average realized P&L are the sum and the mean. -/
def WinRateSpec (closed : List ClosedRecord) : Prop :=
  (calculateWinRate closed).totalTrades = closed.length ∧
  (calculateWinRate closed).wins =
      (closed.filter (fun r => decide (0 ≤ r.realizedReturnPct))).length ∧
  (calculateWinRate closed).losses =
      (closed.filter (fun r => decide (r.realizedReturnPct < 0))).length ∧
  (calculateWinRate closed).wins + (calculateWinRate closed).losses =
      closed.length ∧
  (calculateWinRate closed).winRate =
      ((calculateWinRate closed).wins : ℚ) / closed.length * 100 ∧
  ((closed.filter (fun r => decide (0 ≤ r.realizedReturnPct))) ≠ [] →
    (calculateWinRate closed).avgWin =
      ((closed.filter (fun r => decide (0 ≤ r.realizedReturnPct))).map
          (fun r => r.realizedReturnPct)).sum /
        (closed.filter (fun r => decide (0 ≤ r.realizedReturnPct))).length) ∧
  ((closed.filter (fun r => decide (r.realizedReturnPct < 0))) ≠ [] →
    (calculateWinRate closed).avgLoss =
      ((closed.filter (fun r => decide (r.realizedReturnPct < 0))).map
          (fun r => r.realizedReturnPct)).sum /
        (closed.filter (fun r => decide (r.realizedReturnPct < 0))).length) ∧
  (calculateWinRate closed).totalPl = (closed.map (fun r => r.realizedPl)).sum ∧
  (calculateWinRate closed).avgPl =
      (closed.map (fun r => r.realizedPl)).sum / closed.length

/-- A buy row of the synthetic test account. -/
def exBuy (q p : ℚ) (d : ℤ) : Txn :=
  { accountId := "A", ticker := "T", txnType := TxnType.BUY, quantity := q,
    tradePrice := p, fee := 0, transactionDate := d, stockName := "N",
    country := "KR", currency := "KRW" }

/-- A sell row of the synthetic test account. -/
def exSell (q p : ℚ) (d : ℤ) : Txn :=
  { accountId := "A", ticker := "T", txnType := TxnType.SELL, quantity := q,
    tradePrice := p, fee := 0, transactionDate := d, stockName := "N",
    country := "KR", currency := "KRW" }

/-- The spec's re-entry sequence: buy 10, sell 10, buy 5, sell 5. -/
def reentryTxns : List Txn :=
  [exBuy 10 100 0, exSell 10 120 1, exBuy 5 100 2, exSell 5 110 3]

/-- The record of the re-entry sequence's first episode. -/
def reentryRecordA : ClosedRecord :=
  { ticker := "T", stockName := "N", country := "KR", currency := "KRW",
    totalSharesTraded := 10, realizedPl := 200, realizedReturnPct := 20,
    result := "Win", firstTradeDate := 0, lastTradeDate := 1,
    holdingPeriodDays := 1 }

/-- The record of the re-entry sequence's second episode. -/
def reentryRecordB : ClosedRecord :=
  { ticker := "T", stockName := "N", country := "KR", currency := "KRW",
    totalSharesTraded := 5, realizedPl := 50, realizedReturnPct := 10,
    result := "Win", firstTradeDate := 2, lastTradeDate := 3,
    holdingPeriodDays := 1 }

/-- A sell dated before the only buy; the quantities net to zero on the
buy. -/
def sellBeforeBuyTxns : List Txn := [exSell 5 100 0, exBuy 5 100 1]

/-- An orphan sell before the episode-opening buy, then a closing sell. -/
def orphanSellTxns : List Txn :=
  [exSell 5 100 0, exBuy 10 100 1, exSell 5 110 2]

/-- The single record of the orphan-sell sequence: both sells are counted
and the first trade date is the buy's date, not the orphan sell's. -/
def orphanSellRecord : ClosedRecord :=
  { ticker := "T", stockName := "N", country := "KR", currency := "KRW",
    totalSharesTraded := 10, realizedPl := 50, realizedReturnPct := 5,
    result := "Win", firstTradeDate := 1, lastTradeDate := 2,
    holdingPeriodDays := 1 }

/-- A buy of 10 followed by a partial sell of 4: a held position. -/
def heldPositionTxns : List Txn := [exBuy 10 100 0, exSell 4 110 1]

/-- A round trip that closes on its final sell. -/
def roundTripTxns : List Txn := [exBuy 5 100 0, exSell 5 110 1]

/-- A sell with no prior buy. -/
def sellOnlyTxns : List Txn := [exSell 5 100 0]

/-- The two-account aggregate example: one pure-KRW account worth
1,000,000 and one pure-USD account worth 1,000. -/
def exAggregateAccounts : List AccountData :=
  [{ krwTotalValue := 1000000, usdTotalValue := 0, seedKrw := 0, seedUsd := 0 },
   { krwTotalValue := 0, usdTotalValue := 1000, seedKrw := 0, seedUsd := 0 }]

/-- A closed record carrying a given realized return and P&L. -/
def exClosed (pct pl : ℚ) : ClosedRecord :=
  { ticker := "T", stockName := "N", country := "KR", currency := "KRW",
    totalSharesTraded := 1, realizedPl := pl, realizedReturnPct := pct,
    result := if pct ≥ 0 then "Win" else "Loss", firstTradeDate := 0,
    lastTradeDate := 1, holdingPeriodDays := 1 }

/-- Closed positions with returns +5%, -3%, 0%, +10%. -/
def exWinRateClosed : List ClosedRecord :=
  [exClosed 5 50, exClosed (-3) (-30), exClosed 0 0, exClosed 10 100]


/-! ### Helper lemmas -/

lemma sum_map_add {α : Type} (f g : α → ℚ) (l : List α) :
    (l.map (fun x => f x + g x)).sum = (l.map f).sum + (l.map g).sum := by
  induction l with
  | nil => simp
  | cons a l ih => simp [ih]; ring

lemma sum_map_sub {α : Type} (f g : α → ℚ) (l : List α) :
    (l.map (fun x => f x - g x)).sum = (l.map f).sum - (l.map g).sum := by
  induction l with
  | nil => simp
  | cons a l ih => simp [ih]; ring

lemma buyTxns_append (l1 l2 : List Txn) :
    buyTxns (l1 ++ l2) = buyTxns l1 ++ buyTxns l2 := by
  simp [buyTxns, List.filter_append]

lemma sellTxns_append (l1 l2 : List Txn) :
    sellTxns (l1 ++ l2) = sellTxns l1 ++ sellTxns l2 := by
  simp [sellTxns, List.filter_append]

lemma buyTxns_singleton_buy {t : Txn} (h : t.txnType = TxnType.BUY) :
    buyTxns [t] = [t] := by
  simp [buyTxns, List.filter_cons, h]

lemma buyTxns_singleton_sell {t : Txn} (h : t.txnType = TxnType.SELL) :
    buyTxns [t] = [] := by
  simp [buyTxns, List.filter_cons, h]

lemma sellTxns_singleton_buy {t : Txn} (h : t.txnType = TxnType.BUY) :
    sellTxns [t] = [] := by
  simp [sellTxns, List.filter_cons, h]

lemma sellTxns_singleton_sell {t : Txn} (h : t.txnType = TxnType.SELL) :
    sellTxns [t] = [t] := by
  simp [sellTxns, List.filter_cons, h]

lemma hasBuy_append (l1 l2 : List Txn) :
    hasBuy (l1 ++ l2) = (hasBuy l1 || hasBuy l2) := by
  simp [hasBuy, List.any_append]

lemma hasBuy_singleton_buy {t : Txn} (h : t.txnType = TxnType.BUY) :
    hasBuy [t] = true := by
  simp [hasBuy, h]

lemma hasBuy_singleton_sell {t : Txn} (h : t.txnType = TxnType.SELL) :
    hasBuy [t] = false := by
  simp [hasBuy, h]

lemma firstBuy_append_no_buy {pending : List Txn} (t : Txn)
    (h : hasBuy pending = false) :
    (pending ++ [t]).find? (fun x => x.txnType == TxnType.BUY) =
      [t].find? (fun x => x.txnType == TxnType.BUY) := by
  rw [List.find?_append, List.find?_eq_none.mpr, Option.none_or]
  intro x hx
  have := List.any_eq_false.mp h x hx
  simpa using this

lemma firstBuy_append_has_buy {pending : List Txn} (t : Txn)
    (h : hasBuy pending = true) :
    (pending ++ [t]).find? (fun x => x.txnType == TxnType.BUY) =
      pending.find? (fun x => x.txnType == TxnType.BUY) := by
  rw [List.find?_append]
  have hsome : (pending.find? (fun x => x.txnType == TxnType.BUY)).isSome := by
    refine List.find?_isSome.mpr ?_
    simpa [hasBuy] using h
  obtain ⟨u, hu⟩ := Option.isSome_iff_exists.mp hsome
  simp [hu]

lemma specClosedRun_cons (tick : String) (meta : Txn) (total : ℚ)
    (pending : List Txn) (t : Txn) (rest : List Txn) :
    specClosedRun tick meta total pending (t :: rest) =
      if t.txnType = TxnType.SELL ∧ total + signedQty t = 0 ∧
          hasBuy (pending ++ [t]) then
        episodeRecord tick meta (pending ++ [t]) t.transactionDate ::
          specClosedRun tick meta (total + signedQty t) [] rest
      else
        specClosedRun tick meta (total + signedQty t) (pending ++ [t]) rest :=
  rfl

lemma processTxns_cons (tick : String) (meta : Txn) (st : PositionState)
    (t : Txn) (rest : List Txn) :
    processTxns tick meta st (t :: rest) =
      match stepTxn tick meta st t with
      | (st1, some r) => r :: processTxns tick meta st1 rest
      | (st1, none) => processTxns tick meta st1 rest :=
  rfl

lemma find?_buy_eq_none_of_no_buy {pending : List Txn}
    (h : hasBuy pending = false) :
    pending.find? (fun x => x.txnType == TxnType.BUY) = none := by
  refine List.find?_eq_none.mpr ?_
  intro x hx
  have := List.any_eq_false.mp h x hx
  simpa using this


lemma processTxns_cons_none {tick : String} {meta : Txn} {st st1 : PositionState}
    {t : Txn} (rest : List Txn) (h : stepTxn tick meta st t = (st1, none)) :
    processTxns tick meta st (t :: rest) = processTxns tick meta st1 rest := by
  rw [processTxns_cons, h]

lemma processTxns_cons_some {tick : String} {meta : Txn} {st st1 : PositionState}
    {t : Txn} {r : ClosedRecord} (rest : List Txn)
    (h : stepTxn tick meta st t = (st1, some r)) :
    processTxns tick meta st (t :: rest) =
      r :: processTxns tick meta st1 rest := by
  rw [processTxns_cons, h]

/-- The loop of `calculate_closed_positions` refines the episode-splitting
description: from a state whose fields record exactly the pending rows
accumulated since the last emission, both walks agree. -/
lemma processTxns_eq_specRun (tick : String) (meta : Txn) (l : List Txn) :
    ∀ (pending : List Txn) (st : PositionState) (total : ℚ),
      st.buyList = buyTxns pending →
      st.sellList = sellTxns pending →
      st.positionOpen = hasBuy pending →
      st.firstDate = (pending.find? (fun x => x.txnType == TxnType.BUY)).map
          (fun x => x.transactionDate) →
      st.runningQty = total →
      processTxns tick meta st l = specClosedRun tick meta total pending l := by
  induction l with
  | nil => intro pending st total _ _ _ _ _; rfl
  | cons t rest ih =>
    intro pending st total hb hs ho hf hr
    cases htt : t.txnType with
    | BUY =>
      have hcond : ¬ (t.txnType = TxnType.SELL ∧ total + signedQty t = 0 ∧
          hasBuy (pending ++ [t]) = true) := by
        simp [htt]
      have hbspec : buyTxns (pending ++ [t]) = buyTxns pending ++ [t] := by
        rw [buyTxns_append, buyTxns_singleton_buy htt]
      have hsspec : sellTxns (pending ++ [t]) = sellTxns pending := by
        rw [sellTxns_append, sellTxns_singleton_buy htt, List.append_nil]
      have hospec : hasBuy (pending ++ [t]) = true := by
        rw [hasBuy_append, hasBuy_singleton_buy htt, Bool.or_true]
      have hqspec : st.runningQty + t.quantity = total + signedQty t := by
        simp [hr, signedQty, htt]
      cases hop : st.positionOpen with
      | true =>
        have hopen : hasBuy pending = true := ho.symm.trans hop
        have hstep : stepTxn tick meta st t =
            ({ st with buyList := st.buyList ++ [t],
                       runningQty := st.runningQty + t.quantity }, none) := by
          simp [stepTxn, htt, hop]
        rw [processTxns_cons_none rest hstep, specClosedRun_cons, if_neg hcond]
        refine ih (pending ++ [t]) _ (total + signedQty t) ?_ ?_ ?_ ?_ hqspec
        · rw [hbspec]; exact congrArg (· ++ [t]) hb
        · rw [hsspec]; exact hs
        · rw [hospec]; exact hop
        · rw [firstBuy_append_has_buy t hopen]; exact hf
      | false =>
        have hnobuy : hasBuy pending = false := ho.symm.trans hop
        have hstep : stepTxn tick meta st t =
            ({ st with positionOpen := true,
                       firstDate := some t.transactionDate,
                       buyList := st.buyList ++ [t],
                       runningQty := st.runningQty + t.quantity }, none) := by
          simp [stepTxn, htt, hop]
        rw [processTxns_cons_none rest hstep, specClosedRun_cons, if_neg hcond]
        refine ih (pending ++ [t]) _ (total + signedQty t) ?_ ?_ ?_ ?_ hqspec
        · rw [hbspec]; exact congrArg (· ++ [t]) hb
        · rw [hsspec]; exact hs
        · rw [hospec]
        · rw [firstBuy_append_no_buy t hnobuy]
          simp [List.find?_cons, htt]
    | SELL =>
      have hbuy1 : hasBuy (pending ++ [t]) = hasBuy pending := by
        rw [hasBuy_append, hasBuy_singleton_sell htt, Bool.or_false]
      have hbspec : buyTxns (pending ++ [t]) = buyTxns pending := by
        rw [buyTxns_append, buyTxns_singleton_sell htt, List.append_nil]
      have hsspec : sellTxns (pending ++ [t]) = sellTxns pending ++ [t] := by
        rw [sellTxns_append, sellTxns_singleton_sell htt]
      have hqty : st.runningQty - t.quantity = total + signedQty t := by
        simp [hr, signedQty, htt]; ring
      by_cases hz : st.runningQty - t.quantity = 0 ∧ st.positionOpen = true
      · have hstep : stepTxn tick meta st t =
            ({ positionOpen := false, buyList := [], sellList := [],
               firstDate := none, runningQty := st.runningQty - t.quantity },
             some (createClosedRecord st.buyList (st.sellList ++ [t])
               (st.firstDate.getD 0) t.transactionDate tick meta)) := by
          simp only [stepTxn, htt]
          rw [if_pos]
          exact hz
        have hcond : t.txnType = TxnType.SELL ∧ total + signedQty t = 0 ∧
            hasBuy (pending ++ [t]) = true := by
          refine ⟨htt, ?_, ?_⟩
          · rw [← hqty]; exact hz.1
          · rw [hbuy1, ← ho]; exact hz.2
        have hopen : hasBuy pending = true := ho.symm.trans hz.2
        rw [processTxns_cons_some rest hstep, specClosedRun_cons, if_pos hcond]
        have hrec : createClosedRecord st.buyList (st.sellList ++ [t])
            (st.firstDate.getD 0) t.transactionDate tick meta =
            episodeRecord tick meta (pending ++ [t]) t.transactionDate := by
          rw [episodeRecord]
          rw [hbspec, hsspec, episodeFirstBuyDate, firstBuy_append_has_buy t hopen]
          rw [hb, hs, hf]
        rw [hrec]
        congr 1
        refine ih [] _ (total + signedQty t) (by simp [buyTxns])
          (by simp [sellTxns]) (by simp [hasBuy]) (by simp) ?_
        exact hqty
      · have hstep : stepTxn tick meta st t =
            ({ st with sellList := st.sellList ++ [t],
                       runningQty := st.runningQty - t.quantity }, none) := by
          simp only [stepTxn, htt]
          rw [if_neg]
          exact hz
        have hcond : ¬ (t.txnType = TxnType.SELL ∧ total + signedQty t = 0 ∧
            hasBuy (pending ++ [t]) = true) := by
          rintro ⟨-, h2, h3⟩
          refine hz ⟨?_, ?_⟩
          · rw [hqty]; exact h2
          · rw [ho, ← hbuy1]; exact h3
        rw [processTxns_cons_none rest hstep, specClosedRun_cons, if_neg hcond]
        refine ih (pending ++ [t]) _ (total + signedQty t) ?_ ?_ ?_ ?_ hqty
        · rw [hbspec]; exact hb
        · rw [hsspec]; exact congrArg (· ++ [t]) hs
        · rw [hbuy1]; exact ho
        · cases hop : hasBuy pending with
          | true => rw [firstBuy_append_has_buy t hop]; exact hf
          | false =>
            rw [firstBuy_append_no_buy t hop, hf,
              find?_buy_eq_none_of_no_buy hop]
            simp [List.find?_cons, htt]

/-- `calculate_closed_positions` equals its episode-splitting description. -/
lemma closedPositions_eq_specClosedPositions (tick : String) (g : List Txn) :
    closedPositionsOfGroup tick g = specClosedPositions tick g := by
  rw [closedPositionsOfGroup, specClosedPositions]
  cases sortByDate g with
  | nil => rfl
  | cons m rest =>
    exact processTxns_eq_specRun tick m (m :: rest) [] initPosition 0
      rfl rfl rfl rfl rfl

lemma signedSum_nil : signedSum [] = 0 := rfl

lemma signedSum_cons (t : Txn) (l : List Txn) :
    signedSum (t :: l) = signedQty t + signedSum l := by
  simp [signedSum]

lemma signedSum_append (l1 l2 : List Txn) :
    signedSum (l1 ++ l2) = signedSum l1 + signedSum l2 := by
  simp [signedSum]

lemma signedQty_neg_of_sell {t : Txn} (h : t.txnType = TxnType.SELL)
    (hpos : 0 < t.quantity) : signedQty t < 0 := by
  simp [signedQty, h]
  exact hpos

lemma signedSum_nonpos_of_no_buy {l : List Txn} (h : hasBuy l = false)
    (hpos : ∀ x ∈ l, 0 < x.quantity) : signedSum l ≤ 0 := by
  induction l with
  | nil => simp [signedSum]
  | cons a rest ih =>
    have ha : (a.txnType == TxnType.BUY) = false ∧ hasBuy rest = false := by
      have := h
      rw [hasBuy, List.any_cons] at this
      exact ⟨by simpa using Bool.or_eq_false_iff.mp this |>.1,
        by rw [hasBuy]; exact (Bool.or_eq_false_iff.mp this).2⟩
    have hsell : a.txnType = TxnType.SELL := by
      cases htt : a.txnType with
      | BUY => rw [htt] at ha; simp at ha
      | SELL => rfl
    have h1 : signedQty a < 0 :=
      signedQty_neg_of_sell hsell (hpos a (List.mem_cons_self a rest))
    have h2 : signedSum rest ≤ 0 :=
      ih ha.2 (fun x hx => hpos x (List.mem_cons_of_mem a hx))
    rw [signedSum_cons]
    linarith

lemma zeroSellCount_cons (total : ℚ) (t : Txn) (rest : List Txn) :
    zeroSellCount total (t :: rest) =
      (if t.txnType = TxnType.SELL ∧ total + signedQty t = 0 then 1 else 0) +
        zeroSellCount (total + signedQty t) rest :=
  rfl

/-- With strictly positive quantities, the loop emits exactly one record
each time the running quantity returns to exactly zero on a sell: whenever
that happens, the pending episode necessarily contains a buy. -/
lemma length_specRun_eq_zeroSellCount (tick : String) (meta : Txn)
    (l : List Txn) :
    ∀ (pending : List Txn) (total : ℚ),
      total = signedSum pending →
      (∀ x ∈ pending, 0 < x.quantity) →
      (∀ x ∈ l, 0 < x.quantity) →
      (specClosedRun tick meta total pending l).length =
        zeroSellCount total l := by
  induction l with
  | nil => intro pending total _ _ _; rfl
  | cons t rest ih =>
    intro pending total htot hppos hlpos
    have htpos : 0 < t.quantity := hlpos t (List.mem_cons_self t rest)
    have hrpos : ∀ x ∈ rest, 0 < x.quantity :=
      fun x hx => hlpos x (List.mem_cons_of_mem t hx)
    have hp1pos : ∀ x ∈ pending ++ [t], 0 < x.quantity := by
      intro x hx
      rcases List.mem_append.mp hx with h | h
      · exact hppos x h
      · rcases List.mem_singleton.mp h with rfl; exact htpos
    have htot1 : total + signedQty t = signedSum (pending ++ [t]) := by
      rw [signedSum_append, signedSum_cons, signedSum_nil, htot]; ring
    rw [specClosedRun_cons, zeroSellCount_cons]
    cases htt : t.txnType with
    | BUY =>
      rw [if_neg (by simp [htt]), if_neg (by simp [htt])]
      simpa using ih (pending ++ [t]) (total + signedQty t) htot1 hp1pos hrpos
    | SELL =>
      by_cases hz : total + signedQty t = 0
      · have hbuy : hasBuy (pending ++ [t]) = true := by
          cases hhb : hasBuy (pending ++ [t]) with
          | true => rfl
          | false =>
            have hle : signedSum (pending ++ [t]) ≤ 0 :=
              signedSum_nonpos_of_no_buy hhb hp1pos
            have hpend : hasBuy pending = false := by
              rw [hasBuy_append] at hhb
              exact (Bool.or_eq_false_iff.mp hhb).1
            have hple : signedSum pending ≤ 0 :=
              signedSum_nonpos_of_no_buy hpend hppos
            have hneg : signedQty t < 0 := signedQty_neg_of_sell htt htpos
            rw [← htot1] at hle
            rw [← htot] at hple
            linarith [hz]
        rw [if_pos ⟨rfl, hz, hbuy⟩, if_pos ⟨rfl, hz⟩]
        have := ih [] (total + signedQty t) (by rw [signedSum_nil, hz])
          (by intro x hx; simp at hx) hrpos
        simp only [List.length_cons, this]
        omega
      · rw [if_neg (by rintro ⟨-, h2, -⟩; exact hz h2),
          if_neg (by rintro ⟨-, h2⟩; exact hz h2)]
        simpa using ih (pending ++ [t]) (total + signedQty t) htot1 hp1pos hrpos

instance : IsTotal Txn (fun a b => a.transactionDate ≤ b.transactionDate) :=
  ⟨fun a b => Int.le_total a.transactionDate b.transactionDate⟩

instance : IsTrans Txn (fun a b => a.transactionDate ≤ b.transactionDate) :=
  ⟨fun _ _ _ h1 h2 => le_trans h1 h2⟩

lemma sortByDate_sorted (g : List Txn) :
    (sortByDate g).Sorted (fun a b => a.transactionDate ≤ b.transactionDate) :=
  List.sorted_insertionSort _ g

lemma sortByDate_perm (g : List Txn) : (sortByDate g).Perm g :=
  List.perm_insertionSort _ g

lemma mem_sortByDate {g : List Txn} {x : Txn} : x ∈ sortByDate g ↔ x ∈ g :=
  (sortByDate_perm g).mem_iff

lemma currentQty_nil : currentQty [] = 0 := by
  simp [currentQty, totalBuyQty, totalSellQty, buyTxns, sellTxns]

lemma currentQty_cons_buy {a : Txn} (rest : List Txn)
    (h : a.txnType = TxnType.BUY) :
    currentQty (a :: rest) = a.quantity + currentQty rest := by
  simp [currentQty, totalBuyQty, totalSellQty, buyTxns, sellTxns,
    List.filter_cons, h]
  ring

lemma currentQty_cons_sell {a : Txn} (rest : List Txn)
    (h : a.txnType = TxnType.SELL) :
    currentQty (a :: rest) = -a.quantity + currentQty rest := by
  simp [currentQty, totalBuyQty, totalSellQty, buyTxns, sellTxns,
    List.filter_cons, h]
  ring

lemma signedSum_eq_currentQty (l : List Txn) : signedSum l = currentQty l := by
  induction l with
  | nil => rw [signedSum_nil, currentQty_nil]
  | cons a rest ih =>
    cases htt : a.txnType with
    | BUY =>
      rw [signedSum_cons, currentQty_cons_buy rest htt, ih]
      simp [signedQty, htt]
    | SELL =>
      rw [signedSum_cons, currentQty_cons_sell rest htt, ih]
      simp [signedQty, htt]

lemma signedSum_sortByDate (g : List Txn) :
    signedSum (sortByDate g) = signedSum g :=
  List.Perm.sum_eq ((sortByDate_perm g).map signedQty)

lemma zeroSellCount_pos_of_last_sell (l : List Txn) :
    ∀ (total : ℚ) (t : Txn), l.getLast? = some t →
      t.txnType = TxnType.SELL → total + signedSum l = 0 →
      0 < zeroSellCount total l := by
  induction l with
  | nil => intro total t h _ _; simp at h
  | cons a rest ih =>
    intro total t hlast hsell hsum
    cases rest with
    | nil =>
      have ha : a = t := by simpa using hlast
      subst ha
      have hz : total + signedQty a = 0 := by
        rw [signedSum_cons, signedSum_nil] at hsum
        linarith
      rw [zeroSellCount_cons, if_pos ⟨hsell, hz⟩]
      omega
    | cons b rest2 =>
      have hlast2 : (b :: rest2).getLast? = some t := by
        rwa [List.getLast?_cons_cons] at hlast
      have hsum2 : (total + signedQty a) + signedSum (b :: rest2) = 0 := by
        rw [signedSum_cons] at hsum
        linarith
      have hrec := ih (total + signedQty a) t hlast2 hsell hsum2
      rw [zeroSellCount_cons]
      exact Nat.lt_of_lt_of_le hrec (Nat.le_add_left _ _)

/-- Every record the episode walk emits is the record of some episode whose
closing transaction is a sell of the walked list. -/
lemma mem_specRun_shape (tick : String) (meta : Txn) (l : List Txn) :
    ∀ (pending : List Txn) (total : ℚ) (r : ClosedRecord),
      r ∈ specClosedRun tick meta total pending l →
      ∃ (episode : List Txn) (t : Txn), t ∈ l ∧
        t.txnType = TxnType.SELL ∧ episode.getLast? = some t ∧
        hasBuy episode = true ∧
        r = episodeRecord tick meta episode t.transactionDate := by
  induction l with
  | nil => intro pending total r h; simp [specClosedRun] at h
  | cons t rest ih =>
    intro pending total r hr
    rw [specClosedRun_cons] at hr
    by_cases hc : t.txnType = TxnType.SELL ∧ total + signedQty t = 0 ∧
        hasBuy (pending ++ [t]) = true
    · rw [if_pos hc] at hr
      rcases List.mem_cons.mp hr with rfl | hmem
      · exact ⟨pending ++ [t], t, List.mem_cons_self t rest, hc.1,
          List.getLast?_concat _, hc.2.2, rfl⟩
      · obtain ⟨ep, u, hu, husell, hulast, hubuy, hur⟩ :=
          ih [] (total + signedQty t) r hmem
        exact ⟨ep, u, List.mem_cons_of_mem t hu, husell, hulast, hubuy, hur⟩
    · rw [if_neg hc] at hr
      obtain ⟨ep, u, hu, husell, hulast, hubuy, hur⟩ :=
        ih (pending ++ [t]) (total + signedQty t) r hr
      exact ⟨ep, u, List.mem_cons_of_mem t hu, husell, hulast, hubuy, hur⟩

lemma foldl_add_eq_sum {α : Type} (f : α → ℚ) (l : List α) :
    ∀ s : ℚ, l.foldl (fun acc a => acc + f a) s = s + (l.map f).sum := by
  induction l with
  | nil => intro s; simp
  | cons a rest ih =>
    intro s
    simp [ih (s + f a)]
    ring

lemma mem_of_mem_buyTxns {g : List Txn} {x : Txn} (h : x ∈ buyTxns g) :
    x ∈ g :=
  (List.mem_filter.mp h).1

lemma mem_of_mem_sellTxns {g : List Txn} {x : Txn} (h : x ∈ sellTxns g) :
    x ∈ g :=
  (List.mem_filter.mp h).1

lemma mem_of_mem_groupTxns {txns : List Txn} {accId tick : String} {x : Txn}
    (h : x ∈ groupTxns txns accId tick) : x ∈ txns :=
  (List.mem_filter.mp h).1

lemma totalBuyQty_nonneg {g : List Txn} (h : ∀ t ∈ g, 0 ≤ t.quantity) :
    0 ≤ totalBuyQty g := by
  refine List.sum_nonneg ?_
  intro q hq
  obtain ⟨t, ht, rfl⟩ := List.mem_map.mp hq
  exact h t (mem_of_mem_buyTxns ht)

lemma totalSellQty_nonneg {g : List Txn} (h : ∀ t ∈ g, 0 ≤ t.quantity) :
    0 ≤ totalSellQty g := by
  refine List.sum_nonneg ?_
  intro q hq
  obtain ⟨t, ht, rfl⟩ := List.mem_map.mp hq
  exact h t (mem_of_mem_sellTxns ht)

lemma holdingOfGroup_eq_some {g : List Txn} {h : Holding}
    (hrep : holdingOfGroup g = some h) :
    0 < currentQty g ∧ h.quantity = currentQty g ∧ h.avgPrice = avgPrice g ∧
      h.totalCostBasis = avgPrice g * currentQty g := by
  cases g with
  | nil => simp [holdingOfGroup] at hrep
  | cons m rest =>
    by_cases hc : currentQty (m :: rest) > 0
    · rw [holdingOfGroup, if_pos hc, Option.some.injEq] at hrep
      subst hrep
      exact ⟨hc, rfl, rfl, rfl⟩
    · rw [holdingOfGroup, if_neg hc] at hrep
      exact absurd hrep (by simp)

lemma holdingOfGroup_isSome_iff (g : List Txn) :
    (holdingOfGroup g).isSome ↔ 0 < currentQty g := by
  cases g with
  | nil =>
    constructor
    · intro h; simp [holdingOfGroup] at h
    · intro h; rw [currentQty_nil] at h; exact absurd h (lt_irrefl 0)
  | cons m rest =>
    by_cases hc : currentQty (m :: rest) > 0
    · simp [holdingOfGroup, hc]
    · simp [holdingOfGroup, hc]

lemma holdingOfGroup_eq_none_of_nonpos {g : List Txn}
    (h : currentQty g ≤ 0) : holdingOfGroup g = none := by
  cases g with
  | nil => rfl
  | cons m rest => rw [holdingOfGroup, if_neg (not_lt.mpr h)]

lemma groupTxns_append_match {txns : List Txn} {accId tick : String} {t : Txn}
    (hacc : t.accountId = accId) (htick : t.ticker = tick) :
    groupTxns (txns ++ [t]) accId tick = groupTxns txns accId tick ++ [t] := by
  rw [groupTxns, List.filter_append, groupTxns]
  congr 1
  simp [List.filter_cons, hacc, htick]

lemma avgPrice_append_sell {g : List Txn} {t : Txn}
    (hsell : t.txnType = TxnType.SELL) : avgPrice (g ++ [t]) = avgPrice g := by
  have hb : buyTxns (g ++ [t]) = buyTxns g := by
    rw [buyTxns_append, buyTxns_singleton_sell hsell, List.append_nil]
  rw [avgPrice, avgPrice, totalBuyQty, totalBuyCost, hb]
  rfl

lemma stockValue_foldl_filter (prices : String → Option ℚ)
    (rows : List HoldingRow) :
    ∀ s : ℚ, rows.foldl (stockValueStep prices) s =
      (rows.filter (fun r => (prices r.ticker).isSome)).foldl
        (stockValueStep prices) s := by
  induction rows with
  | nil => intro s; rfl
  | cons a rest ih =>
    intro s
    cases hp : prices a.ticker with
    | none =>
      rw [List.foldl_cons, List.filter_cons, if_neg (by simp [hp])]
      rw [stockValueStep, hp]
      exact ih s
    | some p =>
      rw [List.foldl_cons, List.filter_cons, if_pos (by simp [hp]),
        List.foldl_cons]
      exact ih _

lemma length_filter_wins_add (l : List ClosedRecord) :
    (l.filter (fun r => decide (0 ≤ r.realizedReturnPct))).length +
      (l.filter (fun r => decide (r.realizedReturnPct < 0))).length =
      l.length := by
  induction l with
  | nil => rfl
  | cons a rest ih =>
    by_cases h : 0 ≤ a.realizedReturnPct
    · rw [List.filter_cons, List.filter_cons, if_pos (by simpa using h),
        if_neg (by simpa using not_lt.mpr h)]
      simp only [List.length_cons]
      omega
    · rw [List.filter_cons, List.filter_cons, if_neg (by simpa using h),
        if_pos (by simpa using lt_of_not_ge h)]
      simp only [List.length_cons]
      omega

lemma closedPositions_length_eq (tick : String) (g : List Txn)
    (hpos : ∀ t ∈ g, 0 < t.quantity) :
    (closedPositionsOfGroup tick g).length = zeroSellCount 0 (sortByDate g) := by
  rw [closedPositions_eq_specClosedPositions, specClosedPositions]
  cases hs : sortByDate g with
  | nil => rfl
  | cons m rest =>
    refine length_specRun_eq_zeroSellCount tick m (m :: rest) [] 0
      signedSum_nil.symm (by intro x hx; simp at hx) ?_
    intro x hx
    refine hpos x ?_
    rw [← mem_sortByDate (g := g), hs]
    exact hx

/-! ### Claim theorems -/

/-- C2: `calculate_holdings` reports an `(account, ticker)` pair iff its
net quantity `Σ buy qty − Σ sell qty` is strictly positive; the reported
quantity equals that net, `avg_price` is `(Σ over buys of
price×qty + fee) / Σ buy qty` (fees in the numerator, buy side only), and
`total_cost_basis = avg_price × net quantity`. -/
theorem holdings_report_spec (txns : List Txn) (accId tick : String)
    (hq : ∀ t ∈ txns, 0 ≤ t.quantity) :
    ((calculateHoldings txns accId tick).isSome ↔
      0 < totalBuyQty (groupTxns txns accId tick) -
          totalSellQty (groupTxns txns accId tick)) ∧
    ∀ h : Holding, calculateHoldings txns accId tick = some h →
      h.quantity = totalBuyQty (groupTxns txns accId tick) -
          totalSellQty (groupTxns txns accId tick) ∧
      h.avgPrice = totalBuyCost (groupTxns txns accId tick) /
          totalBuyQty (groupTxns txns accId tick) ∧
      h.totalCostBasis = h.avgPrice * h.quantity := by
  constructor
  · exact holdingOfGroup_isSome_iff (groupTxns txns accId tick)
  · intro h hrep
    obtain ⟨hposq, hq1, ha, hb⟩ := holdingOfGroup_eq_some hrep
    refine ⟨hq1, ?_, ?_⟩
    · rw [ha, avgPrice]
      by_cases hb0 : totalBuyQty (groupTxns txns accId tick) > 0
      · rw [if_pos hb0]
      · rw [if_neg hb0]
        have h0 : totalBuyQty (groupTxns txns accId tick) = 0 :=
          le_antisymm (not_lt.mp hb0)
            (totalBuyQty_nonneg (fun t ht => hq t (mem_of_mem_groupTxns ht)))
        rw [h0, div_zero]
    · rw [hb, ha, hq1]

/-- C2 witness: a buy of 10 at 100 followed by a sell of 4 reports a
holding of 6 at average price 100. -/
theorem holdings_report_spec_witness :
    (∀ t ∈ heldPositionTxns, 0 ≤ t.quantity) ∧
    (((calculateHoldings heldPositionTxns "A" "T").isSome ↔
      0 < totalBuyQty (groupTxns heldPositionTxns "A" "T") -
          totalSellQty (groupTxns heldPositionTxns "A" "T")) ∧
    ∀ h : Holding, calculateHoldings heldPositionTxns "A" "T" = some h →
      h.quantity = totalBuyQty (groupTxns heldPositionTxns "A" "T") -
          totalSellQty (groupTxns heldPositionTxns "A" "T") ∧
      h.avgPrice = totalBuyCost (groupTxns heldPositionTxns "A" "T") /
          totalBuyQty (groupTxns heldPositionTxns "A" "T") ∧
      h.totalCostBasis = h.avgPrice * h.quantity) :=
  ⟨by decide, holdings_report_spec heldPositionTxns "A" "T" (by decide)⟩

/-- C5: appending a sell for a still-held pair that leaves the net
quantity strictly positive does not change the reported average price. -/
theorem avg_price_invariant_under_sell (txns : List Txn)
    (accId tick : String) (t : Txn) (h1 h2 : Holding)
    (hacc : t.accountId = accId) (htick : t.ticker = tick)
    (hsell : t.txnType = TxnType.SELL)
    (hrep1 : calculateHoldings txns accId tick = some h1)
    (hrep2 : calculateHoldings (txns ++ [t]) accId tick = some h2) :
    h2.avgPrice = h1.avgPrice := by
  have hg : groupTxns (txns ++ [t]) accId tick =
      groupTxns txns accId tick ++ [t] := groupTxns_append_match hacc htick
  have e1 := (holdingOfGroup_eq_some hrep1).2.2.1
  have e2 := (holdingOfGroup_eq_some hrep2).2.2.1
  rw [e1, e2, hg, avgPrice_append_sell hsell]

/-- C5 witness: selling 4 of a 10-share position leaves the average price
at 100. -/
theorem avg_price_invariant_under_sell_witness :
    (exSell 4 110 1).accountId = "A" ∧ (exSell 4 110 1).ticker = "T" ∧
    (exSell 4 110 1).txnType = TxnType.SELL ∧
    calculateHoldings [exBuy 10 100 0] "A" "T" =
      some { quantity := 10, avgPrice := 100, stockName := "N",
             country := "KR", currency := "KRW", totalCostBasis := 1000 } ∧
    calculateHoldings ([exBuy 10 100 0] ++ [exSell 4 110 1]) "A" "T" =
      some { quantity := 6, avgPrice := 100, stockName := "N",
             country := "KR", currency := "KRW", totalCostBasis := 600 } ∧
    (100 : ℚ) = 100 :=
  ⟨by decide, by decide, by decide, by with_unfolding_all rfl,
    by with_unfolding_all rfl,
    avg_price_invariant_under_sell [exBuy 10 100 0] "A" "T" (exSell 4 110 1)
      { quantity := 10, avgPrice := 100, stockName := "N", country := "KR",
        currency := "KRW", totalCostBasis := 1000 }
      { quantity := 6, avgPrice := 100, stockName := "N", country := "KR",
        currency := "KRW", totalCostBasis := 600 }
      (by decide) (by decide) (by decide) (by with_unfolding_all rfl)
      (by with_unfolding_all rfl)⟩

/-- C9: a pair with only sell transactions is guarded: its average-price
branch yields 0 instead of dividing by zero, and the pair is excluded
from the holdings. -/
theorem sell_only_guarded (txns : List Txn) (accId tick : String)
    (hnobuy : buyTxns (groupTxns txns accId tick) = [])
    (hq : ∀ t ∈ txns, 0 ≤ t.quantity) :
    calculateHoldings txns accId tick = none ∧
    avgPrice (groupTxns txns accId tick) = 0 := by
  have hq0 : totalBuyQty (groupTxns txns accId tick) = 0 := by
    rw [totalBuyQty, hnobuy]
    rfl
  have hsellq : 0 ≤ totalSellQty (groupTxns txns accId tick) :=
    totalSellQty_nonneg (fun t ht => hq t (mem_of_mem_groupTxns ht))
  have hcur : currentQty (groupTxns txns accId tick) ≤ 0 := by
    rw [currentQty, hq0]
    linarith
  refine ⟨holdingOfGroup_eq_none_of_nonpos hcur, ?_⟩
  rw [avgPrice, hq0, if_neg (lt_irrefl 0)]

/-- C9 witness: a single sell with no prior buy yields no holding and a
guarded average price of 0. -/
theorem sell_only_guarded_witness :
    buyTxns (groupTxns sellOnlyTxns "A" "T") = [] ∧
    (∀ t ∈ sellOnlyTxns, 0 ≤ t.quantity) ∧
    (calculateHoldings sellOnlyTxns "A" "T" = none ∧
      avgPrice (groupTxns sellOnlyTxns "A" "T") = 0) :=
  ⟨by decide, by decide, sell_only_guarded sellOnlyTxns "A" "T"
    (by decide) (by decide)⟩

/-- C1: `calculate_closed_positions` processes each group's rows sorted by
date ascending with a running signed quantity, emits exactly one record
each time the running quantity returns to exactly zero on a sell (the
record computed over the rows accumulated since the last emission, with
the episode state reset afterwards, as expressed by the episode-splitting
description), a group whose running quantity never returns to zero yields
no record, and the re-entry sequence buy 10 → sell 10 → buy 5 → sell 5
yields exactly the two independent episode records. -/
theorem closed_positions_episode_spec (tick : String) (g : List Txn)
    (hpos : ∀ t ∈ g, 0 < t.quantity) :
    ClosedEpisodeSpec tick g ∧
    closedPositionsOfGroup "T" reentryTxns = [reentryRecordA, reentryRecordB] := by
  refine ⟨⟨sortByDate_sorted g, sortByDate_perm g,
    closedPositions_eq_specClosedPositions tick g,
    closedPositions_length_eq tick g hpos, ?_⟩, by with_unfolding_all rfl⟩
  intro h0
  exact List.length_eq_zero.mp ((closedPositions_length_eq tick g hpos).trans h0)

/-- C1 witness: the re-entry sequence instantiates the episode
specification. -/
theorem closed_positions_episode_spec_witness :
    (∀ t ∈ reentryTxns, 0 < t.quantity) ∧
    (ClosedEpisodeSpec "T" reentryTxns ∧
      closedPositionsOfGroup "T" reentryTxns = [reentryRecordA, reentryRecordB]) :=
  ⟨by decide, closed_positions_episode_spec "T" reentryTxns (by decide)⟩

/-- C3: every record emitted by `calculate_closed_positions` is the record
of some episode, with realized P&L `(Σ sell price×qty − Σ sell fees) −
(Σ buy price×qty + Σ buy fees)` over the episode's rows, realized return
`realized_pl / buy cost × 100` (0 on non-positive buy cost), the label
`"Win"` iff the return is ≥ 0, and holding period = last date − first
date. -/
theorem closed_record_arithmetic (tick : String) (g : List Txn)
    (r : ClosedRecord) (hr : r ∈ closedPositionsOfGroup tick g) :
    ∃ (meta : Txn) (episode : List Txn) (lastDate : ℤ),
      EpisodeArithSpec tick meta r episode lastDate := by
  rw [closedPositions_eq_specClosedPositions, specClosedPositions] at hr
  cases hs : sortByDate g with
  | nil => rw [hs] at hr; simp at hr
  | cons m rest =>
    rw [hs] at hr
    obtain ⟨ep, t, ht, hsell, hlast, hbuy, hre⟩ :=
      mem_specRun_shape tick m (m :: rest) [] 0 r hr
    subst hre
    refine ⟨m, ep, t.transactionDate, rfl, ?_, ?_, ?_, rfl, rfl⟩
    · simp only [episodeRecord, createClosedRecord]
      rw [sum_map_sub, sum_map_add]
    · simp only [episodeRecord, createClosedRecord]
    · simp only [episodeRecord, createClosedRecord]
      by_cases hge : (0 : ℚ) ≤
          (if 0 < ((buyTxns ep).map
              (fun t => t.tradePrice * t.quantity + t.fee)).sum
            then (((sellTxns ep).map
                (fun t => t.tradePrice * t.quantity - t.fee)).sum -
                ((buyTxns ep).map
                  (fun t => t.tradePrice * t.quantity + t.fee)).sum) /
                ((buyTxns ep).map
                  (fun t => t.tradePrice * t.quantity + t.fee)).sum * 100
            else 0)
      · simp [hge]
      · simp [hge]

/-- C3 witness: the first re-entry record satisfies the episode
arithmetic. -/
theorem closed_record_arithmetic_witness :
    reentryRecordA ∈ closedPositionsOfGroup "T" reentryTxns ∧
    ∃ (meta : Txn) (episode : List Txn) (lastDate : ℤ),
      EpisodeArithSpec "T" meta reentryRecordA episode lastDate := by
  have hm : reentryRecordA ∈ closedPositionsOfGroup "T" reentryTxns := by
    have he : closedPositionsOfGroup "T" reentryTxns =
        [reentryRecordA, reentryRecordB] := by with_unfolding_all rfl
    rw [he]
    exact List.mem_cons_self _ _
  exact ⟨hm, closed_record_arithmetic "T" reentryTxns reentryRecordA hm⟩

/-- C10: a record can only be emitted while processing a SELL row (the
closing row of every emitted episode is a sell of the group, and a buy
that restores the running quantity to zero emits nothing), and sells
encountered while no episode is open stay in the pending episode, so
their revenue counts in the next record, whose first trade date is the
date of the episode-opening buy rather than the earlier sell. -/
theorem emission_only_on_sell (tick : String) (g : List Txn)
    (r : ClosedRecord) (hr : r ∈ closedPositionsOfGroup tick g) :
    (∃ (meta : Txn) (episode : List Txn) (t : Txn), t ∈ g ∧
      t.txnType = TxnType.SELL ∧ episode.getLast? = some t ∧
      hasBuy episode = true ∧
      r = episodeRecord tick meta episode t.transactionDate) ∧
    closedPositionsOfGroup "T" sellBeforeBuyTxns = [] ∧
    closedPositionsOfGroup "T" orphanSellTxns = [orphanSellRecord] := by
  refine ⟨?_, by with_unfolding_all rfl, by with_unfolding_all rfl⟩
  rw [closedPositions_eq_specClosedPositions, specClosedPositions] at hr
  cases hs : sortByDate g with
  | nil => rw [hs] at hr; simp at hr
  | cons m rest =>
    rw [hs] at hr
    obtain ⟨ep, t, ht, hsell, hlast, hbuy, hre⟩ :=
      mem_specRun_shape tick m (m :: rest) [] 0 r hr
    refine ⟨m, ep, t, ?_, hsell, hlast, hbuy, hre⟩
    have hmem : t ∈ sortByDate g := by rw [hs]; exact ht
    exact mem_sortByDate.mp hmem

/-- C10 witness: the orphan-sell sequence's record closes on the final
sell, counts both sells and starts at the buy's date. -/
theorem emission_only_on_sell_witness :
    orphanSellRecord ∈ closedPositionsOfGroup "T" orphanSellTxns ∧
    ((∃ (meta : Txn) (episode : List Txn) (t : Txn), t ∈ orphanSellTxns ∧
        t.txnType = TxnType.SELL ∧ episode.getLast? = some t ∧
        hasBuy episode = true ∧
        orphanSellRecord = episodeRecord "T" meta episode t.transactionDate) ∧
      closedPositionsOfGroup "T" sellBeforeBuyTxns = [] ∧
      closedPositionsOfGroup "T" orphanSellTxns = [orphanSellRecord]) := by
  have hm : orphanSellRecord ∈ closedPositionsOfGroup "T" orphanSellTxns := by
    have he : closedPositionsOfGroup "T" orphanSellTxns =
        [orphanSellRecord] := by with_unfolding_all rfl
    rw [he]
    exact List.mem_cons_self _ _
  exact ⟨hm, emission_only_on_sell "T" orphanSellTxns orphanSellRecord hm⟩

/-- C4: `calculate_aggregate_metrics` sums each currency's total value
across accounts and applies the spot rate once to the summed totals:
combined KRW value = Σ KRW + Σ USD × rate, combined USD value = Σ USD +
Σ KRW / rate with the converted term 0 unless the rate is positive; the
two-account example at rate 1300 combines to 2,300,000 KRW. -/
theorem aggregate_metrics_spec (accountsData : List AccountData) (rate : ℚ) :
    (calculateAggregateMetrics accountsData rate).totalValueKrw =
      (accountsData.map (fun a => a.krwTotalValue)).sum +
        (accountsData.map (fun a => a.usdTotalValue)).sum * rate ∧
    (calculateAggregateMetrics accountsData rate).totalValueUsd =
      (accountsData.map (fun a => a.usdTotalValue)).sum +
        (if 0 < rate then
          (accountsData.map (fun a => a.krwTotalValue)).sum / rate else 0) ∧
    (calculateAggregateMetrics exAggregateAccounts 1300).totalValueKrw =
      2300000 := by
  refine ⟨?_, ?_, by with_unfolding_all rfl⟩
  · simp [calculateAggregateMetrics, foldl_add_eq_sum]
  · simp [calculateAggregateMetrics, foldl_add_eq_sum]

/-- C6 counterexample: a sell of 5 dated before the buy of 5 nets the pair
to exactly zero, yet `calculate_closed_positions` emits no record (the
quantity returns to zero on the buy, which never emits); the pair is
absent from holdings. -/
theorem zero_net_no_record_counterexample :
    currentQty (groupTxns sellBeforeBuyTxns "A" "T") = 0 ∧
    calculateHoldings sellBeforeBuyTxns "A" "T" = none ∧
    calculateClosedPositions sellBeforeBuyTxns "A" "T" = [] :=
  ⟨by with_unfolding_all rfl, by with_unfolding_all rfl,
    by with_unfolding_all rfl⟩

/-- C6 (amended): with strictly positive quantities, a pair with net
quantity ≤ 0 is absent from the holdings, and a pair whose net quantity
is exactly zero and whose last date-ordered row is a SELL contributes at
least one closed-position record. -/
theorem zero_net_spec (txns : List Txn) (accId tick : String)
    (hpos : ∀ t ∈ txns, 0 < t.quantity) :
    (currentQty (groupTxns txns accId tick) ≤ 0 →
      calculateHoldings txns accId tick = none) ∧
    (currentQty (groupTxns txns accId tick) = 0 →
      lastIsSell (sortByDate (groupTxns txns accId tick)) = true →
      calculateClosedPositions txns accId tick ≠ []) := by
  constructor
  · exact holdingOfGroup_eq_none_of_nonpos
  · intro hzero hlast
    obtain ⟨t, hg, hts⟩ : ∃ t,
        (sortByDate (groupTxns txns accId tick)).getLast? = some t ∧
          t.txnType = TxnType.SELL := by
      unfold lastIsSell at hlast
      cases hl : (sortByDate (groupTxns txns accId tick)).getLast? with
      | none => rw [hl] at hlast; simp at hlast
      | some u => rw [hl] at hlast; exact ⟨u, rfl, by simpa using hlast⟩
    have hsum : (0 : ℚ) +
        signedSum (sortByDate (groupTxns txns accId tick)) = 0 := by
      rw [zero_add, signedSum_sortByDate, signedSum_eq_currentQty]
      exact hzero
    have hcount : 0 < zeroSellCount 0
        (sortByDate (groupTxns txns accId tick)) :=
      zeroSellCount_pos_of_last_sell _ 0 t hg hts hsum
    have hlen := closedPositions_length_eq tick (groupTxns txns accId tick)
      (fun x hx => hpos x (mem_of_mem_groupTxns hx))
    intro hnil
    have hnil2 : closedPositionsOfGroup tick (groupTxns txns accId tick) = [] :=
      hnil
    rw [hnil2] at hlen
    simp at hlen
    omega

/-- C6 witness: a plain round trip nets to zero on its final sell and
yields a record. -/
theorem zero_net_spec_witness :
    (∀ t ∈ roundTripTxns, 0 < t.quantity) ∧
    ((currentQty (groupTxns roundTripTxns "A" "T") ≤ 0 →
        calculateHoldings roundTripTxns "A" "T" = none) ∧
      (currentQty (groupTxns roundTripTxns "A" "T") = 0 →
        lastIsSell (sortByDate (groupTxns roundTripTxns "A" "T")) = true →
        calculateClosedPositions roundTripTxns "A" "T" ≠ [])) :=
  ⟨by decide, zero_net_spec roundTripTxns "A" "T" (by decide)⟩

/-- C7: `calculate_portfolio_metrics` splits holdings by currency and
values each half; a ticker absent from the price lookup contributes
exactly zero to that currency's stock value, `total_value = stock_value +
cash`, and `return_pct` is 0 on a zero seed and `(total_value − seed) /
seed × 100` on a positive one. -/
theorem portfolio_metrics_spec (holdingsRows : List HoldingRow)
    (prices : String → Option ℚ) (cashKrw cashUsd seedKrw seedUsd : ℚ) :
    calculatePortfolioMetrics holdingsRows prices cashKrw cashUsd
        seedKrw seedUsd =
      (currencyMetricsFor (holdingsRows.filter (fun r => r.currency == "KRW"))
          prices cashKrw seedKrw,
        currencyMetricsFor (holdingsRows.filter (fun r => r.currency == "USD"))
          prices cashUsd seedUsd) ∧
    ∀ (rows : List HoldingRow) (cash seedMoney : ℚ),
      CurrencySpec rows prices cash seedMoney := by
  refine ⟨rfl, ?_⟩
  intro rows cash seedMoney
  refine ⟨stockValue_foldl_filter prices rows 0, rfl, ?_, ?_⟩
  · intro h0
    simp [currencyMetricsFor, h0]
  · intro hposseed
    simp [currencyMetricsFor, hposseed]

/-- C8: `calculate_win_rate` buckets a non-empty set of closed positions
by `return_pct >= 0` (ties at 0 are wins), the buckets partition the
set, `win_rate = wins / total × 100`, bucket averages are simple means,
total and average P&L are the sum and the mean; the example returns
[+5%, −3%, 0%, +10%] give 3 wins, 1 loss and a 75% win rate. -/
theorem win_rate_spec (closed : List ClosedRecord) (hne : closed ≠ []) :
    WinRateSpec closed ∧
    calculateWinRate exWinRateClosed =
      { totalTrades := 4, wins := 3, losses := 1, winRate := 75, avgWin := 5,
        avgLoss := -3, totalPl := 120, avgPl := 30 } := by
  refine ⟨?_, by with_unfolding_all rfl⟩
  cases closed with
  | nil => exact absurd rfl hne
  | cons a rest =>
    refine ⟨rfl, rfl, rfl, length_filter_wins_add (a :: rest), ?_, ?_, ?_,
      rfl, rfl⟩
    · simp [calculateWinRate]
    · intro hw
      simp only [calculateWinRate]
      rw [if_neg (by simpa [List.isEmpty_iff] using hw)]
    · intro hl
      simp only [calculateWinRate]
      rw [if_neg (by simpa [List.isEmpty_iff] using hl)]

/-- C8 witness: the four-record example instantiates the win-rate
specification. -/
theorem win_rate_spec_witness :
    exWinRateClosed ≠ [] ∧
    (WinRateSpec exWinRateClosed ∧
      calculateWinRate exWinRateClosed =
        { totalTrades := 4, wins := 3, losses := 1, winRate := 75, avgWin := 5,
          avgLoss := -3, totalPl := 120, avgPl := 30 }) :=
  ⟨by decide, win_rate_spec exWinRateClosed (by decide)⟩

/-- C4 witness: the two-account example instantiates the aggregate
specification. -/
theorem aggregate_metrics_spec_witness :
    (calculateAggregateMetrics exAggregateAccounts 1300).totalValueKrw =
      (exAggregateAccounts.map (fun a => a.krwTotalValue)).sum +
        (exAggregateAccounts.map (fun a => a.usdTotalValue)).sum * 1300 ∧
    (calculateAggregateMetrics exAggregateAccounts 1300).totalValueUsd =
      (exAggregateAccounts.map (fun a => a.usdTotalValue)).sum +
        (if (0 : ℚ) < 1300 then
          (exAggregateAccounts.map (fun a => a.krwTotalValue)).sum / 1300
          else 0) ∧
    (calculateAggregateMetrics exAggregateAccounts 1300).totalValueKrw =
      2300000 :=
  aggregate_metrics_spec exAggregateAccounts 1300

/-- C7 witness: the empty holdings frame with an empty price lookup
instantiates the portfolio-metrics specification. -/
theorem portfolio_metrics_spec_witness :
    calculatePortfolioMetrics [] (fun _ => none) 0 0 0 0 =
      (currencyMetricsFor (List.filter (fun r => r.currency == "KRW") [])
          (fun _ => none) 0 0,
        currencyMetricsFor (List.filter (fun r => r.currency == "USD") [])
          (fun _ => none) 0 0) ∧
    ∀ (rows : List HoldingRow) (cash seedMoney : ℚ),
      CurrencySpec rows (fun _ => none) cash seedMoney :=
  portfolio_metrics_spec [] (fun _ => none) 0 0 0 0
